import Mathlib

/-!
# Verification of the agent orchestration runtime

Shallow embedding of the orchestration runtime of the
`intelligent-synthesizer-ai` repository: the dispatcher (`Runner.run`),
the sequencer (`Runner.run_sequence`), the parallel executor
(`Runner.run_parallel`) from `src/intelligent_agents/runner.py`, and the
tracing wrapper (`trace`) and trace-id generator (`gen_trace_id`) from
`src/agents.py`.

Python values that flow through the runtime are modelled by `Value`
(either the `None` value or a string payload — the runtime only ever
inspects values through `str(...)`), Python exceptions by `Err` (the
runtime only inspects an exception through `str(e)`, i.e. its message),
and Python string slicing `s[:n]` by `pySlice`.
-/

/-- A Python value as seen by the runtime: `None` or a string payload.
The runtime never inspects a value except through `str(...)`. -/
inductive Value where
  | vNone : Value
  | vStr : String → Value
deriving DecidableEq, Repr

/-- Python `str(...)` on a `Value`: `str(None) = "None"`, `str(s) = s`. -/
def pyStr : Value → String
  | Value.vNone => "None"
  | Value.vStr s => s

/-- A Python exception, inspected only through `str(e)`: its message. -/
structure Err where
  msg : String
deriving DecidableEq, Repr

/-- Python slicing `s[:n]` on a string: the first `n` characters. -/
def pySlice (s : String) (n : Nat) : String :=
  String.mk (s.data.take n)

/-- A work unit (the `Agent.execute` coroutine of `agent.py`): one input,
one output, may fail with an exception. -/
def AgentF : Type := Value → Except Err Value

/-- The dict literal appended to `self.execution_history` by `Runner.run`
(`runner.py` lines 44-49 on success, 55-60 on error): keys `agent_name`,
`input_data`, `result` (success only), `error` (error only), `status`. -/
structure ExecutionRecord where
  agent_name : String
  input_data : String
  result : Option String
  error : Option String
  status : String
deriving DecidableEq, Repr

/-- The mutable state of a `Runner` instance (`runner.py` lines 13-14):
the agent registry dict (modelled as an association list, first match
wins as for a dict lookup) and the execution history list. -/
structure RunnerState where
  agents : List (String × AgentF)
  execution_history : List ExecutionRecord

/-- Dict lookup `self.agents.get(name)` / membership `name in self.agents`. -/
def lookupAgent (agents : List (String × AgentF)) (name : String) : Option AgentF :=
  match agents.find? (fun p => p.1 == name) with
  | some p => some p.2
  | none => none

/-- The message of the `ValueError` raised for an unregistered name
(`runner.py` line 37). -/
def unknownMsg (agent_name : String) : String :=
  "Agent \x27" ++ agent_name ++ "\x27 not found"

/-- The result of one `Runner.run` call: the updated runner state, the
outcome seen by the caller (returned value or propagated exception), and
the ghost log of which registered agents had `execute` invoked. -/
structure RunResult where
  state : RunnerState
  outcome : Except Err Value
  invoked : List String

/-- `Runner.run` (`runner.py` lines 24-63): look the agent up, raising
`ValueError` if absent; invoke `agent.execute(input_data)`; append a
success record (input and result truncated to 500 chars via `[:500]`) and
return the result, or append an error record (input truncated, error
message `str(e)` NOT truncated) and re-raise. The `invoked` field is a
ghost log of the `agent.execute` calls made. -/
def Runner.run (s : RunnerState) (agent_name : String) (input_data : Value) : RunResult :=
  match lookupAgent s.agents agent_name with
  | none =>
      let e : Err := ⟨unknownMsg agent_name⟩
      let record : ExecutionRecord :=
        { agent_name := agent_name
          input_data := pySlice (pyStr input_data) 500
          result := none
          error := some e.msg
          status := "error" }
      { state := { s with execution_history := s.execution_history ++ [record] }
        outcome := Except.error e
        invoked := [] }
  | some agent =>
      match agent input_data with
      | Except.ok result =>
          let record : ExecutionRecord :=
            { agent_name := agent_name
              input_data := pySlice (pyStr input_data) 500
              result := some (pySlice (pyStr result) 500)
              error := none
              status := "success" }
          { state := { s with execution_history := s.execution_history ++ [record] }
            outcome := Except.ok result
            invoked := [agent_name] }
      | Except.error e =>
          let record : ExecutionRecord :=
            { agent_name := agent_name
              input_data := pySlice (pyStr input_data) 500
              result := none
              error := some e.msg
              status := "error" }
          { state := { s with execution_history := s.execution_history ++ [record] }
            outcome := Except.error e
            invoked := [agent_name] }

/-- The true outcome of dispatching `agent_name` on `input_data` against a
registry: the unit's own output on success, the propagated failure
otherwise (`UnknownCapabilityError` when the name is unregistered). -/
def dispatchOutcome (agents : List (String × AgentF)) (agent_name : String)
    (input_data : Value) : Except Err Value :=
  match lookupAgent agents agent_name with
  | none => Except.error ⟨unknownMsg agent_name⟩
  | some agent => agent input_data

/-- The execution record a dispatch of `agent_name` on `input_data`
appends, as a function of the registry alone. -/
def dispatchRecord (agents : List (String × AgentF)) (agent_name : String)
    (input_data : Value) : ExecutionRecord :=
  match lookupAgent agents agent_name with
  | none =>
      { agent_name := agent_name
        input_data := pySlice (pyStr input_data) 500
        result := none
        error := some (unknownMsg agent_name)
        status := "error" }
  | some agent =>
      match agent input_data with
      | Except.ok result =>
          { agent_name := agent_name
            input_data := pySlice (pyStr input_data) 500
            result := some (pySlice (pyStr result) 500)
            error := none
            status := "success" }
      | Except.error e =>
          { agent_name := agent_name
            input_data := pySlice (pyStr input_data) 500
            result := none
            error := some e.msg
            status := "error" }

/-- The agents whose `execute` a dispatch invokes, as a function of the
registry alone: the named agent if registered, nobody otherwise. -/
def dispatchInvoked (agents : List (String × AgentF)) (agent_name : String) : List String :=
  match lookupAgent agents agent_name with
  | none => []
  | some _ => [agent_name]

/-- Unfolding lemma: one `Runner.run` call leaves the registry unchanged,
appends exactly the dispatch record to the history, returns the dispatch
outcome, and invokes exactly the dispatch-invoked agents — each a
function of the registry and the call arguments only. -/
theorem run_eq_dispatch (s : RunnerState) (agent_name : String) (input_data : Value) :
    Runner.run s agent_name input_data =
      { state := { agents := s.agents
                   execution_history :=
                     s.execution_history ++ [dispatchRecord s.agents agent_name input_data] }
        outcome := dispatchOutcome s.agents agent_name input_data
        invoked := dispatchInvoked s.agents agent_name } := by
  unfold Runner.run dispatchOutcome dispatchRecord dispatchInvoked
  cases h : lookupAgent s.agents agent_name with
  | none => rfl
  | some agent => cases hr : agent input_data <;> simp only [hr]

/-- A sequence of N independent calls to `Runner.run`, threading the
runner state; returns the final state and the outcome each caller saw,
in call order. -/
def runMany (s : RunnerState) (calls : List (String × Value)) :
    RunnerState × List (Except Err Value) :=
  match calls with
  | [] => (s, [])
  | (agent_name, input_data) :: rest =>
      let r := Runner.run s agent_name input_data
      let p := runMany r.state rest
      (p.1, r.outcome :: p.2)

/-- C1: every dispatch call — successful, failed in the unit, or failed
on an unknown name — appends exactly one `ExecutionRecord`, so after N
calls the history is the old history extended by exactly N records in
call order, the registry is untouched, and each caller received the true
outcome of its own dispatch (the unit's output on success, the
propagated failure otherwise). -/
theorem history_one_record_per_call (s : RunnerState) (calls : List (String × Value)) :
    (runMany s calls).1.execution_history =
        s.execution_history ++ calls.map (fun c => dispatchRecord s.agents c.1 c.2)
    ∧ (runMany s calls).2 = calls.map (fun c => dispatchOutcome s.agents c.1 c.2)
    ∧ (runMany s calls).1.execution_history.length =
        s.execution_history.length + calls.length
    ∧ (runMany s calls).1.agents = s.agents := by
  induction calls generalizing s with
  | nil => simp [runMany]
  | cons c rest ih =>
      obtain ⟨n, x⟩ := c
      have h := ih (⟨s.agents,
        s.execution_history ++ [dispatchRecord s.agents n x]⟩ : RunnerState)
      obtain ⟨h1, h2, h3, h4⟩ := h
      simp only [runMany, run_eq_dispatch]
      refine ⟨?_, ?_, ?_, h4⟩
      · rw [h1]; simp
      · rw [h2]; rfl
      · rw [h3]; simp [List.length_append]; omega

/-- C8: dispatch behaviour never reads the history. Two runner states
with the same registry but arbitrary different histories invoke the same
agents, produce the same outcome for the caller, and append the very
same record — each history just grows by that one shared record. -/
theorem run_independent_of_history (s1 s2 : RunnerState) (agent_name : String)
    (input_data : Value) (h : s1.agents = s2.agents) :
    (Runner.run s1 agent_name input_data).outcome =
        (Runner.run s2 agent_name input_data).outcome
    ∧ (Runner.run s1 agent_name input_data).invoked =
        (Runner.run s2 agent_name input_data).invoked
    ∧ (Runner.run s1 agent_name input_data).state.execution_history =
        s1.execution_history ++ [dispatchRecord s1.agents agent_name input_data]
    ∧ (Runner.run s2 agent_name input_data).state.execution_history =
        s2.execution_history ++ [dispatchRecord s1.agents agent_name input_data] := by
  rw [run_eq_dispatch, run_eq_dispatch, h]
  exact ⟨rfl, rfl, rfl, rfl⟩

/-- An agent that succeeds, echoing its input (used as a concrete work
unit in witnesses). -/
def echoAgent : AgentF := fun v => Except.ok v

/-- An agent that always fails with message `boom` (used as a concrete
work unit in witnesses). -/
def boomAgent : AgentF := fun _ => Except.error ⟨"boom"⟩

/-- Witness for C8: same registry, one empty history and one non-empty
history — outcomes, invocations and the appended record coincide. -/
theorem run_independent_of_history_witness :
    (⟨[("echo", echoAgent)], []⟩ : RunnerState).agents =
        (⟨[("echo", echoAgent)],
          [⟨"old", "None", none, some "stale", "error"⟩]⟩ : RunnerState).agents
    ∧ (Runner.run ⟨[("echo", echoAgent)], []⟩ "echo" (Value.vStr "hi")).outcome =
        (Runner.run ⟨[("echo", echoAgent)],
          [⟨"old", "None", none, some "stale", "error"⟩]⟩ "echo" (Value.vStr "hi")).outcome :=
  ⟨rfl,
    (run_independent_of_history ⟨[("echo", echoAgent)], []⟩
      ⟨[("echo", echoAgent)], [⟨"old", "None", none, some "stale", "error"⟩]⟩
      "echo" (Value.vStr "hi") rfl).1⟩

/-- The length of a string built from a character list is the list's length. -/
theorem string_length_mk (l : List Char) : (String.mk l).length = l.length := rfl

/-- String concatenation adds lengths. -/
theorem string_length_append (a b : String) : (a ++ b).length = a.length + b.length := by
  cases a with
  | mk la =>
      cases b with
      | mk lb =>
          show (String.mk (la ++ lb)).length = _
          simp [string_length_mk]

/-- A Python slice `s[:n]` never exceeds `n` characters. -/
theorem pySlice_length_le (s : String) (n : Nat) : (pySlice s n).length ≤ n := by
  simp only [pySlice, string_length_mk]
  exact (List.length_take n s.data).le.trans (Nat.min_le_left n s.data.length)

/-- C2 (amended): every dispatch appends exactly one record whose stored
input string and stored success-result string are truncated to at most
500 characters (the error-message string is stored untruncated). -/
theorem record_input_and_result_truncated (s : RunnerState) (agent_name : String)
    (input_data : Value) :
    (Runner.run s agent_name input_data).state.execution_history =
        s.execution_history ++ [dispatchRecord s.agents agent_name input_data]
    ∧ (dispatchRecord s.agents agent_name input_data).input_data.length ≤ 500
    ∧ ((dispatchRecord s.agents agent_name input_data).result.getD "").length ≤ 500 := by
  refine ⟨by rw [run_eq_dispatch], ?_, ?_⟩
  · unfold dispatchRecord
    cases h : lookupAgent s.agents agent_name with
    | none => simpa using pySlice_length_le (pyStr input_data) 500
    | some agent =>
        cases hr : agent input_data <;> simp only [hr] <;>
          simpa using pySlice_length_le (pyStr input_data) 500
  · unfold dispatchRecord
    cases h : lookupAgent s.agents agent_name with
    | none => simp
    | some agent =>
        cases hr : agent input_data with
        | ok v => simp only [hr]; simpa using pySlice_length_le (pyStr v) 500
        | error e => simp [hr]

/-- A 600-character agent name, used to exhibit an oversized stored
error message. -/
def longName : String := String.mk (List.replicate 600 'a')

set_option maxRecDepth 4096 in
/-- C2 counterexample: dispatching a 600-character unregistered name
stores the full 618-character error message `Agent '<name>' not found`
in the record's `error` field — the stored result-or-error string
exceeds the 500-character bound, so the claim as stated is false. -/
theorem record_error_exceeds_bound :
    (Runner.run ⟨[], []⟩ longName Value.vNone).state.execution_history =
        [⟨longName, "None", none, some (unknownMsg longName), "error"⟩]
    ∧ 500 < (unknownMsg longName).length := by
  constructor
  · rfl
  · have h1 : longName.length = 600 := by
      show (List.replicate 600 'a').length = 600
      simp
    have h2 : (unknownMsg longName).length = 618 := by
      simp only [unknownMsg, string_length_append, h1]
      decide
    omega

/-- C3: dispatching a name absent from the registry fails with the
`ValueError` naming the missing agent, appends exactly one error-status
record, and invokes no registered unit. -/
theorem run_unknown_agent (s : RunnerState) (agent_name : String) (input_data : Value)
    (h : lookupAgent s.agents agent_name = none) :
    (Runner.run s agent_name input_data).outcome = Except.error ⟨unknownMsg agent_name⟩
    ∧ (Runner.run s agent_name input_data).state.execution_history =
        s.execution_history ++
          [⟨agent_name, pySlice (pyStr input_data) 500, none,
            some (unknownMsg agent_name), "error"⟩]
    ∧ (Runner.run s agent_name input_data).invoked = [] := by
  unfold Runner.run
  rw [h]
  exact ⟨rfl, rfl, rfl⟩

/-- Witness for C3: a registry holding only `echo` dispatched with the
unregistered name `ghost`. -/
theorem run_unknown_agent_witness :
    lookupAgent [("echo", echoAgent)] "ghost" = none
    ∧ (Runner.run ⟨[("echo", echoAgent)], []⟩ "ghost" Value.vNone).outcome =
        Except.error ⟨unknownMsg "ghost"⟩
    ∧ (Runner.run ⟨[("echo", echoAgent)], []⟩ "ghost" Value.vNone).invoked = [] :=
  ⟨rfl,
    (run_unknown_agent ⟨[("echo", echoAgent)], []⟩ "ghost" Value.vNone rfl).1,
    (run_unknown_agent ⟨[("echo", echoAgent)], []⟩ "ghost" Value.vNone rfl).2.2⟩

/-- One entry of the list given to `run_sequence` / `run_parallel`: a
dict with a mandatory `agent` key and an optional `input` key. -/
structure Step where
  agent : String
  input : Option Value
deriving DecidableEq, Repr

/-- `step.get("input")` (`runner.py` lines 79 and 105): the step's input
value, or Python `None` when the `input` key is absent. -/
def stepInput (step : Step) : Value :=
  step.input.getD Value.vNone

/-- The true outcome of dispatching one step. -/
def stepOutcome (agents : List (String × AgentF)) (step : Step) : Except Err Value :=
  dispatchOutcome agents step.agent (stepInput step)

/-- The record one step's dispatch appends. -/
def stepRecord (agents : List (String × AgentF)) (step : Step) : ExecutionRecord :=
  dispatchRecord agents step.agent (stepInput step)

/-- Whether an outcome is a success. -/
def exOk : Except Err Value → Bool
  | Except.ok _ => true
  | Except.error _ => false

/-- The value of a successful outcome (junk `None` on a failure). -/
def okVal : Except Err Value → Value
  | Except.ok v => v
  | Except.error _ => Value.vNone

/-- The error of a failed outcome (junk empty message on a success). -/
def errOf : Except Err Value → Err
  | Except.error e => e
  | Except.ok _ => ⟨""⟩

/-- The result of one `run_sequence` call: final state, the list of
results or the propagated failure, and the ghost log of the agent names
for which an iteration of the loop called `self.run`. -/
structure SeqResult where
  state : RunnerState
  outcome : Except Err (List Value)
  called : List String

/-- `Runner.run_sequence` (`runner.py` lines 65-88): run each step via
`self.run(step["agent"], step.get("input"))` in order, accumulating
results; the first failure propagates unchanged and ends the loop, with
no rollback of already-appended records. -/
def Runner.run_sequence (s : RunnerState) (sequence : List Step) : SeqResult :=
  match sequence with
  | [] => ⟨s, Except.ok [], []⟩
  | step :: rest =>
      let r := Runner.run s step.agent (stepInput step)
      match r.outcome with
      | Except.error e => ⟨r.state, Except.error e, [step.agent]⟩
      | Except.ok v =>
          let q := Runner.run_sequence r.state rest
          match q.outcome with
          | Except.ok vs => ⟨q.state, Except.ok (v :: vs), step.agent :: q.called⟩
          | Except.error e => ⟨q.state, Except.error e, step.agent :: q.called⟩

/-- When every step of the sequence succeeds, `run_sequence` returns all
results in step order, appends all records in step order, and ran every
step. -/
theorem run_sequence_all_ok (s : RunnerState) (steps : List Step)
    (hall : ∀ st ∈ steps, exOk (stepOutcome s.agents st) = true) :
    Runner.run_sequence s steps =
      ⟨⟨s.agents, s.execution_history ++ steps.map (stepRecord s.agents)⟩,
       Except.ok (steps.map (fun st => okVal (stepOutcome s.agents st))),
       steps.map Step.agent⟩ := by
  induction steps generalizing s with
  | nil => simp [Runner.run_sequence]
  | cons st rest ih =>
      have hst : exOk (stepOutcome s.agents st) = true :=
        hall st (List.mem_cons_self st rest)
      obtain ⟨v, hv⟩ : ∃ v, stepOutcome s.agents st = Except.ok v := by
        cases hq : stepOutcome s.agents st with
        | ok v => exact ⟨v, rfl⟩
        | error e => rw [hq] at hst; exact absurd hst (by simp [exOk])
      have ihh := ih (⟨s.agents,
          s.execution_history ++ [stepRecord s.agents st]⟩ : RunnerState)
        (fun st2 h2 => hall st2 (List.mem_cons_of_mem st h2))
      simp only [Runner.run_sequence, run_eq_dispatch]
      have hv' : dispatchOutcome s.agents st.agent (stepInput st) = Except.ok v := hv
      simp only [hv']
      rw [show dispatchRecord s.agents st.agent (stepInput st) =
            stepRecord s.agents st from rfl, ihh]
      simp only [List.map_cons, hv, okVal]
      simp

/-- When all steps before `fl` succeed and `fl` fails, `run_sequence`
stops at `fl`: the steps after it are never run, the failure propagates,
and exactly the records through `fl` are appended. -/
theorem run_sequence_stops (s : RunnerState) (pre : List Step) (fl : Step)
    (post : List Step)
    (hpre : ∀ st ∈ pre, exOk (stepOutcome s.agents st) = true)
    (hfl : exOk (stepOutcome s.agents fl) = false) :
    Runner.run_sequence s (pre ++ fl :: post) =
      ⟨⟨s.agents, s.execution_history ++ (pre ++ [fl]).map (stepRecord s.agents)⟩,
       Except.error (errOf (stepOutcome s.agents fl)),
       (pre ++ [fl]).map Step.agent⟩ := by
  induction pre generalizing s with
  | nil =>
      obtain ⟨e, he⟩ : ∃ e, stepOutcome s.agents fl = Except.error e := by
        cases hq : stepOutcome s.agents fl with
        | ok v => rw [hq] at hfl; exact absurd hfl (by simp [exOk])
        | error e => exact ⟨e, rfl⟩
      simp only [List.nil_append, Runner.run_sequence, run_eq_dispatch]
      have he' : dispatchOutcome s.agents fl.agent (stepInput fl) = Except.error e := he
      simp only [he']
      rw [show dispatchRecord s.agents fl.agent (stepInput fl) =
            stepRecord s.agents fl from rfl]
      simp [he, errOf]
  | cons st rest ih =>
      have hst : exOk (stepOutcome s.agents st) = true :=
        hpre st (List.mem_cons_self st rest)
      obtain ⟨v, hv⟩ : ∃ v, stepOutcome s.agents st = Except.ok v := by
        cases hq : stepOutcome s.agents st with
        | ok v => exact ⟨v, rfl⟩
        | error e => rw [hq] at hst; exact absurd hst (by simp [exOk])
      have ihh := ih (⟨s.agents,
          s.execution_history ++ [stepRecord s.agents st]⟩ : RunnerState)
        (fun st2 h2 => hpre st2 (List.mem_cons_of_mem st h2)) hfl
      simp only [List.cons_append, Runner.run_sequence, run_eq_dispatch]
      have hv' : dispatchOutcome s.agents st.agent (stepInput st) = Except.ok v := hv
      simp only [hv', List.append_eq]
      rw [show dispatchRecord s.agents st.agent (stepInput st) =
            stepRecord s.agents st from rfl, ihh]
      simp

/-- C4: for a sequence whose first failing step is `fl` (every step of
`pre` succeeds, `fl` fails), `run_sequence` propagates the original
failure of `fl` unchanged, runs no step after `fl`, and the history
keeps exactly the records for the completed steps and `fl` — successes
then the one error — with no rollback; and when every step succeeds it
returns the list of all results in step order. -/
theorem run_sequence_spec (s : RunnerState) (steps : List Step) :
    (∀ pre fl post, steps = pre ++ fl :: post →
        (∀ st ∈ pre, exOk (stepOutcome s.agents st) = true) →
        exOk (stepOutcome s.agents fl) = false →
        (Runner.run_sequence s steps).outcome =
            Except.error (errOf (stepOutcome s.agents fl))
        ∧ (Runner.run_sequence s steps).state.execution_history =
            s.execution_history ++ (pre ++ [fl]).map (stepRecord s.agents)
        ∧ (Runner.run_sequence s steps).called = (pre ++ [fl]).map Step.agent)
    ∧ ((∀ st ∈ steps, exOk (stepOutcome s.agents st) = true) →
        (Runner.run_sequence s steps).outcome =
            Except.ok (steps.map (fun st => okVal (stepOutcome s.agents st)))
        ∧ (Runner.run_sequence s steps).state.execution_history =
            s.execution_history ++ steps.map (stepRecord s.agents)
        ∧ (Runner.run_sequence s steps).called = steps.map Step.agent) := by
  constructor
  · intro pre fl post hsteps hpre hfl
    subst hsteps
    rw [run_sequence_stops s pre fl post hpre hfl]
    exact ⟨rfl, rfl, rfl⟩
  · intro hall
    rw [run_sequence_all_ok s steps hall]
    exact ⟨rfl, rfl, rfl⟩

/-- A three-step demo sequence whose middle step fails: `echo` succeeds,
`boom` fails, and a final `echo` step is never reached. -/
def demoState : RunnerState :=
  ⟨[("echo", echoAgent), ("boom", boomAgent)], []⟩

/-- Witness for C4: on steps `[echo, boom, echo]` the sequencer
propagates `boom`, appends exactly the `echo` success record and the
`boom` error record, and never runs the third step; on `[echo, echo]`
it returns both results in order. -/
theorem run_sequence_spec_witness :
    (([⟨"echo", some (Value.vStr "x")⟩] : List Step) ++
        (⟨"boom", none⟩ : Step) :: [⟨"echo", none⟩] =
      [⟨"echo", some (Value.vStr "x")⟩, ⟨"boom", none⟩, ⟨"echo", none⟩])
    ∧ (Runner.run_sequence demoState
        [⟨"echo", some (Value.vStr "x")⟩, ⟨"boom", none⟩, ⟨"echo", none⟩]).outcome =
        Except.error ⟨"boom"⟩
    ∧ (Runner.run_sequence demoState
        [⟨"echo", some (Value.vStr "x")⟩, ⟨"boom", none⟩, ⟨"echo", none⟩]).called =
        ["echo", "boom"]
    ∧ (Runner.run_sequence demoState
        [⟨"echo", some (Value.vNone)⟩, ⟨"echo", some (Value.vStr "y")⟩]).outcome =
        Except.ok [Value.vNone, Value.vStr "y"] := by
  refine ⟨rfl, ?_, ?_, ?_⟩
  · exact ((run_sequence_spec demoState
      [⟨"echo", some (Value.vStr "x")⟩, ⟨"boom", none⟩, ⟨"echo", none⟩]).1
      [⟨"echo", some (Value.vStr "x")⟩] ⟨"boom", none⟩ [⟨"echo", none⟩]
      rfl (by decide) (by decide)).1
  · exact ((run_sequence_spec demoState
      [⟨"echo", some (Value.vStr "x")⟩, ⟨"boom", none⟩, ⟨"echo", none⟩]).1
      [⟨"echo", some (Value.vStr "x")⟩] ⟨"boom", none⟩ [⟨"echo", none⟩]
      rfl (by decide) (by decide)).2.2
  · exact ((run_sequence_spec demoState
      [⟨"echo", some (Value.vNone)⟩, ⟨"echo", some (Value.vStr "y")⟩]).2
      (by decide)).1

/-- The task at index `i` of the task list (junk step when out of range;
every use is guarded by `i < tasks.length`). -/
def taskAt (tasks : List Step) (i : Nat) : Step :=
  (tasks[i]?).getD ⟨"", none⟩

/-- The `asyncio.gather` round of `run_parallel`: each scheduled
coroutine `run_task(task)` performs its whole `self.run` dispatch at its
completion slot; `order` is the completion order of the task indices
chosen by the event loop. Returns the final state and each task's
`(index, outcome)` pair in completion order. -/
def runTasks (s : RunnerState) (tasks : List Step) (order : List Nat) :
    RunnerState × List (Nat × Except Err Value) :=
  match order with
  | [] => (s, [])
  | i :: rest =>
      match tasks[i]? with
      | none => runTasks s tasks rest
      | some t =>
          let r := Runner.run s t.agent (stepInput t)
          let p := runTasks r.state tasks rest
          (p.1, (i, r.outcome) :: p.2)

/-- The outcome recorded for task index `i` (junk error if absent; every
use is guarded by `i` being scheduled). -/
def outcomeAt (outs : List (Nat × Except Err Value)) (i : Nat) : Except Err Value :=
  match outs.find? (fun p => p.1 == i) with
  | some p => p.2
  | none => Except.error ⟨""⟩

/-- `Runner.run_parallel` (`runner.py` lines 90-113): launch one
`run_task` per task and `await asyncio.gather(...)`. Gather raises the
first exception in completion order (no partial result list) and
otherwise returns the task results indexed by original task position. -/
def Runner.run_parallel (s : RunnerState) (tasks : List Step) (order : List Nat) :
    RunnerState × Except Err (List Value) :=
  let p := runTasks s tasks order
  match p.2.find? (fun q => !(exOk q.2)) with
  | some q => (p.1, Except.error (errOf q.2))
  | none =>
      (p.1, Except.ok ((List.range tasks.length).map (fun i => okVal (outcomeAt p.2 i))))

/-- `runTasks` appends one dispatch record per scheduled task, in
completion order, and reports each task's true dispatch outcome — all
computed against the initial registry, which never changes. -/
theorem runTasks_spec (s : RunnerState) (tasks : List Step) (order : List Nat)
    (h : ∀ i ∈ order, i < tasks.length) :
    runTasks s tasks order =
      (⟨s.agents, s.execution_history ++
          order.map (fun i => stepRecord s.agents (taskAt tasks i))⟩,
       order.map (fun i => (i, stepOutcome s.agents (taskAt tasks i)))) := by
  induction order generalizing s with
  | nil => simp [runTasks]
  | cons i rest ih =>
      have hi : i < tasks.length := h i (List.mem_cons_self i rest)
      have ht : tasks[i]? = some tasks[i] := List.getElem?_eq_getElem hi
      have hta : taskAt tasks i = tasks[i] := by simp [taskAt, ht]
      have ihh := ih (⟨s.agents,
          s.execution_history ++ [stepRecord s.agents (taskAt tasks i)]⟩ : RunnerState)
        (fun j hj => h j (List.mem_cons_of_mem i hj))
      simp only [runTasks, ht, run_eq_dispatch, hta]
      rw [show dispatchRecord s.agents tasks[i].agent (stepInput tasks[i]) =
            stepRecord s.agents tasks[i] from rfl] at *
      rw [show dispatchOutcome s.agents tasks[i].agent (stepInput tasks[i]) =
            stepOutcome s.agents tasks[i] from rfl]
      rw [hta] at ihh
      rw [ihh]
      simp [hta]

/-- In an association list keyed by distinct indices with value `f i` at
key `i`, lookup of a scheduled key returns its value. -/
theorem find_key_map (order : List Nat) (f : Nat → Except Err Value) (i : Nat)
    (h : i ∈ order) :
    (order.map (fun j => (j, f j))).find? (fun p => p.1 == i) = some (i, f i) := by
  induction order with
  | nil => cases h
  | cons j rest ih =>
      by_cases hj : j = i
      · subst hj
        simp [List.find?]
      · have hji : ((fun p => p.1 == i) ((j, f j) : Nat × Except Err Value)) = false := by
          simp [hj]
        rw [List.map_cons, List.find?_cons_of_neg _ (by simp [hji])]
        exact ih (by
          rcases List.mem_cons.mp h with h1 | h1
          · exact absurd h1.symm hj
          · exact h1)

/-- Mapping a function over the tasks by index equals mapping it over
the task list. -/
theorem map_range_taskAt {α : Type} (g : Step → α) (l : List Step) :
    (List.range l.length).map (fun i => g (taskAt l i)) = l.map g := by
  apply List.ext_getElem
  · simp
  · intro i h1 h2
    have hi : i < l.length := by simpa using h2
    simp [taskAt, List.getElem?_eq_getElem hi]

/-- Unfolding lemma for `run_parallel`: the final history holds one
record per scheduled task in completion order, and the result is the
first failure in completion order, or else all task results in original
index order. -/
theorem run_parallel_eq (s : RunnerState) (tasks : List Step) (order : List Nat)
    (hmem : ∀ i ∈ order, i < tasks.length) :
    Runner.run_parallel s tasks order =
      (⟨s.agents, s.execution_history ++
          order.map (fun i => stepRecord s.agents (taskAt tasks i))⟩,
       match (order.map (fun i => (i, stepOutcome s.agents (taskAt tasks i)))).find?
           (fun q => !(exOk q.2)) with
       | some q => Except.error (errOf q.2)
       | none => Except.ok ((List.range tasks.length).map (fun i =>
           okVal (outcomeAt
             (order.map (fun j => (j, stepOutcome s.agents (taskAt tasks j)))) i)))) := by
  unfold Runner.run_parallel
  rw [runTasks_spec s tasks order hmem]
  cases hf : ((order.map (fun i => (i, stepOutcome s.agents (taskAt tasks i)))).find?
      (fun q => !(exOk q.2))) <;> simp only [hf]

/-- C5: when every task's dispatch succeeds, `run_parallel` returns the
result list indexed by original task position — its i-th element is the
result of dispatching the i-th task and its length is the number of
tasks — for EVERY completion order the event loop may choose. -/
theorem run_parallel_all_ok (s : RunnerState) (tasks : List Step) (order : List Nat)
    (hperm : order.Perm (List.range tasks.length))
    (hok : ∀ st ∈ tasks, exOk (stepOutcome s.agents st) = true) :
    (Runner.run_parallel s tasks order).2 =
        Except.ok (tasks.map (fun st => okVal (stepOutcome s.agents st)))
    ∧ (tasks.map (fun st => okVal (stepOutcome s.agents st))).length = tasks.length := by
  have hmem : ∀ i ∈ order, i < tasks.length := by
    intro i hi
    have := hperm.mem_iff.mp hi
    simpa [List.mem_range] using this
  refine ⟨?_, by simp⟩
  rw [run_parallel_eq s tasks order hmem]
  have hnone : ((order.map (fun i => (i, stepOutcome s.agents (taskAt tasks i)))).find?
      (fun q => !(exOk q.2))) = none := by
    rw [List.find?_eq_none]
    intro x hx
    obtain ⟨i, hi, rfl⟩ := List.mem_map.mp hx
    have hil : i < tasks.length := hmem i hi
    have hmem2 : taskAt tasks i ∈ tasks := by
      rw [show taskAt tasks i = tasks[i] from by
        simp [taskAt, List.getElem?_eq_getElem hil]]
      exact List.getElem_mem hil
    simp [hok (taskAt tasks i) hmem2]
  rw [hnone]
  have hout : ∀ i ∈ List.range tasks.length,
      okVal (outcomeAt
        (order.map (fun j => (j, stepOutcome s.agents (taskAt tasks j)))) i) =
      okVal (stepOutcome s.agents (taskAt tasks i)) := by
    intro i hi
    have hio : i ∈ order := hperm.mem_iff.mpr hi
    rw [show outcomeAt
        (order.map (fun j => (j, stepOutcome s.agents (taskAt tasks j)))) i =
        stepOutcome s.agents (taskAt tasks i) from by
      unfold outcomeAt
      rw [find_key_map order (fun j => stepOutcome s.agents (taskAt tasks j)) i hio]]
  show Except.ok _ = _
  rw [List.map_congr_left hout]
  exact congrArg Except.ok
    (map_range_taskAt (fun st => okVal (stepOutcome s.agents st)) tasks)

/-- C6: when at least one task's dispatch fails, `run_parallel` fails as
a whole — the caller gets a failure, never a partial result list — while
the history still gained exactly one record per task (every task reached
dispatch and was recorded individually). -/
theorem run_parallel_fail_fast (s : RunnerState) (tasks : List Step) (order : List Nat)
    (hperm : order.Perm (List.range tasks.length))
    (hbad : ∃ st ∈ tasks, exOk (stepOutcome s.agents st) = false) :
    (∃ e, (Runner.run_parallel s tasks order).2 = Except.error e)
    ∧ (Runner.run_parallel s tasks order).1.execution_history =
        s.execution_history ++ order.map (fun i => stepRecord s.agents (taskAt tasks i))
    ∧ (Runner.run_parallel s tasks order).1.execution_history.length =
        s.execution_history.length + tasks.length := by
  have hmem : ∀ i ∈ order, i < tasks.length := by
    intro i hi
    have := hperm.mem_iff.mp hi
    simpa [List.mem_range] using this
  have hlen : order.length = tasks.length := by
    have := hperm.length_eq
    simpa using this
  rw [run_parallel_eq s tasks order hmem]
  cases hf : ((order.map (fun i => (i, stepOutcome s.agents (taskAt tasks i)))).find?
      (fun q => !(exOk q.2))) with
  | none =>
      exfalso
      obtain ⟨st, hst, hfail⟩ := hbad
      obtain ⟨i, hil, rfl⟩ := List.mem_iff_getElem.mp hst
      have hio : i ∈ order := hperm.mem_iff.mpr (List.mem_range.mpr hil)
      have hx : ((i, stepOutcome s.agents (taskAt tasks i)) :
          Nat × Except Err Value) ∈
          order.map (fun j => (j, stepOutcome s.agents (taskAt tasks j))) :=
        List.mem_map.mpr ⟨i, hio, rfl⟩
      have := List.find?_eq_none.mp hf _ hx
      rw [show taskAt tasks i = tasks[i] from by
        simp [taskAt, List.getElem?_eq_getElem hil]] at this
      simp [hfail] at this
  | some q =>
      refine ⟨⟨errOf q.2, rfl⟩, rfl, ?_⟩
      simp [hlen]

/-- Witness for C5: two `echo` tasks completed in the reversed order
`[1, 0]` still yield results in original task order `[a, b]`. -/
theorem run_parallel_all_ok_witness :
    ([1, 0] : List Nat).Perm (List.range
      ([⟨"echo", some (Value.vStr "a")⟩, ⟨"echo", some (Value.vStr "b")⟩] : List Step).length)
    ∧ (Runner.run_parallel demoState
        [⟨"echo", some (Value.vStr "a")⟩, ⟨"echo", some (Value.vStr "b")⟩] [1, 0]).2 =
      Except.ok [Value.vStr "a", Value.vStr "b"] :=
  ⟨by decide,
    (run_parallel_all_ok demoState
      [⟨"echo", some (Value.vStr "a")⟩, ⟨"echo", some (Value.vStr "b")⟩] [1, 0]
      (by decide) (by decide)).1⟩

/-- Witness for C6: of three tasks completed in order `[2, 0, 1]` the
`boom` task fails, the whole call fails, and the history gained three
records — one per task. -/
theorem run_parallel_fail_fast_witness :
    ([2, 0, 1] : List Nat).Perm (List.range
      ([⟨"echo", none⟩, ⟨"boom", none⟩, ⟨"echo", some (Value.vStr "z")⟩] : List Step).length)
    ∧ (∃ e, (Runner.run_parallel demoState
        [⟨"echo", none⟩, ⟨"boom", none⟩, ⟨"echo", some (Value.vStr "z")⟩] [2, 0, 1]).2 =
          Except.error e)
    ∧ (Runner.run_parallel demoState
        [⟨"echo", none⟩, ⟨"boom", none⟩, ⟨"echo", some (Value.vStr "z")⟩]
        [2, 0, 1]).1.execution_history.length = 3 :=
  ⟨by decide,
    (run_parallel_fail_fast demoState
      [⟨"echo", none⟩, ⟨"boom", none⟩, ⟨"echo", some (Value.vStr "z")⟩] [2, 0, 1]
      (by decide) (by decide)).1,
    (run_parallel_fail_fast demoState
      [⟨"echo", none⟩, ⟨"boom", none⟩, ⟨"echo", some (Value.vStr "z")⟩] [2, 0, 1]
      (by decide) (by decide)).2.2⟩

/-- `runTasks` only looks at a task's `agent` name and effective input:
two head tasks agreeing on both are interchangeable. -/
theorem runTasks_head_congr (t1 t2 : Step) (h1 : t1.agent = t2.agent)
    (h2 : stepInput t1 = stepInput t2) (rest : List Step) (order : List Nat) :
    ∀ s : RunnerState, runTasks s (t1 :: rest) order = runTasks s (t2 :: rest) order := by
  induction order with
  | nil => intro s; rfl
  | cons i os ih =>
      intro s
      cases i with
      | zero =>
          simp only [runTasks, List.getElem?_cons_zero]
          rw [h1, h2, ih]
      | succ n =>
          simp only [runTasks, List.getElem?_cons_succ]
          cases rest[n]? with
          | none => exact ih s
          | some t => simp only [ih]

/-- C10: a step or task whose dict omits the `input` key is dispatched
with Python `None` as input, exactly as if `input: None` had been given
explicitly — `run`, `run_sequence` and `run_parallel` behave
identically on the two forms, records included. -/
theorem missing_input_is_none (s : RunnerState) (a : String) (rest : List Step)
    (order : List Nat) :
    stepInput ⟨a, none⟩ = Value.vNone
    ∧ Runner.run s a (stepInput ⟨a, none⟩) = Runner.run s a Value.vNone
    ∧ Runner.run_sequence s (⟨a, none⟩ :: rest) =
        Runner.run_sequence s (⟨a, some Value.vNone⟩ :: rest)
    ∧ Runner.run_parallel s (⟨a, none⟩ :: rest) order =
        Runner.run_parallel s (⟨a, some Value.vNone⟩ :: rest) order := by
  refine ⟨rfl, rfl, rfl, ?_⟩
  unfold Runner.run_parallel
  rw [runTasks_head_congr ⟨a, none⟩ ⟨a, some Value.vNone⟩ rfl rfl rest order s]
  rfl

/-- One observability line printed by `trace` (`agents.py` lines 8-27):
the starting line, the completed line with elapsed duration, or the
failed line with elapsed duration and the error's message. -/
inductive Signal where
  | started : String → Signal
  | succeeded : String → Int → Signal
  | failed : String → Int → String → Signal
deriving DecidableEq, Repr

/-- Whether a signal is a failure signal. -/
def Signal.isFailure : Signal → Bool
  | Signal.failed _ _ _ => true
  | _ => false

/-- Whether a signal is a success signal. -/
def Signal.isSuccess : Signal → Bool
  | Signal.succeeded _ _ => true
  | _ => false

/-- `trace` (`agents.py` lines 8-27): record `start_time`, print the
start line, run the wrapped block, then print the completion line or the
failure line with `duration = time.time() - start_time` and `str(e)`,
re-raising the original exception unchanged. `t0` and `t1` are the two
clock readings; the block's outcome is `block`. Returns the emitted
signals and the outcome the caller sees. -/
def trace (operation : String) (t0 t1 : Int) (block : Except Err Value) :
    List Signal × Except Err Value :=
  match block with
  | Except.ok v =>
      ([Signal.started operation, Signal.succeeded operation (t1 - t0)], Except.ok v)
  | Except.error e =>
      ([Signal.started operation, Signal.failed operation (t1 - t0) e.msg],
       Except.error e)

/-- C7: around a failing block, `trace` emits exactly one failure signal,
carrying the operation name, the elapsed duration (non-negative whenever
the second clock reading is at least the first) and the error's message,
then re-raises the very same error; around a completing block it emits
exactly one success signal, no failure signal, and returns the block's
outcome unchanged. -/
theorem trace_transparent (operation : String) (t0 t1 : Int) (h : t0 ≤ t1) :
    (∀ e : Err,
        (trace operation t0 t1 (Except.error e)).2 = Except.error e
        ∧ (trace operation t0 t1 (Except.error e)).1.filter Signal.isFailure =
            [Signal.failed operation (t1 - t0) e.msg]
        ∧ 0 ≤ t1 - t0)
    ∧ (∀ v : Value,
        (trace operation t0 t1 (Except.ok v)).2 = Except.ok v
        ∧ (trace operation t0 t1 (Except.ok v)).1.filter Signal.isSuccess =
            [Signal.succeeded operation (t1 - t0)]
        ∧ (trace operation t0 t1 (Except.ok v)).1.filter Signal.isFailure = []) := by
  constructor
  · intro e
    refine ⟨rfl, ?_, by omega⟩
    simp [trace, Signal.isFailure, List.filter]
  · intro v
    refine ⟨rfl, ?_, ?_⟩ <;>
      simp [trace, Signal.isFailure, Signal.isSuccess, List.filter]

/-- Witness for C7: clock readings 3 then 7 around a failing block and a
completing block. -/
theorem trace_transparent_witness :
    ((3 : Int) ≤ 7)
    ∧ (trace "Run Agent: demo" 3 7 (Except.error ⟨"boom"⟩)).2 =
        Except.error ⟨"boom"⟩
    ∧ (trace "Run Agent: demo" 3 7 (Except.error ⟨"boom"⟩)).1.filter Signal.isFailure =
        [Signal.failed "Run Agent: demo" 4 "boom"]
    ∧ (trace "Run Agent: demo" 3 7 (Except.ok Value.vNone)).2 =
        Except.ok Value.vNone :=
  ⟨by decide,
    ((trace_transparent "Run Agent: demo" 3 7 (by decide)).1 ⟨"boom"⟩).1,
    ((trace_transparent "Run Agent: demo" 3 7 (by decide)).1 ⟨"boom"⟩).2.1,
    ((trace_transparent "Run Agent: demo" 3 7 (by decide)).2 Value.vNone).1⟩

/-- The lowercase hexadecimal digit character for `n < 16`. -/
def hexDigit (n : Nat) : Char :=
  if n < 10 then Char.ofNat (48 + n) else Char.ofNat (87 + n)

/-- The `w` low-order hexadecimal digits of `n`, most significant first,
zero padded to width `w` — how `uuid.hex` renders an integer. -/
def hexDigits : Nat → Nat → List Char
  | 0, _ => []
  | w + 1, n => hexDigits w (n / 16) ++ [hexDigit (n % 16)]

/-- `uuid.uuid4().hex`: the 32 hex digits of the 128-bit random value
`u` drawn for this call. -/
def uuidHex (u : Nat) : String :=
  String.mk (hexDigits 32 (u % 2 ^ 128))

/-- `gen_trace_id` (`agents.py` lines 30-33): the fixed text `trace_`
followed by `uuid.uuid4().hex[:8]`, the first 8 hex digits of the
128-bit random draw `u`. A pure function of the draw: no global counter
state. -/
def gen_trace_id (u : Nat) : String :=
  "trace_" ++ pySlice (uuidHex u) 8

/-- `hexDigits w n` always has exactly `w` characters. -/
theorem hexDigits_length (w : Nat) : ∀ n, (hexDigits w n).length = w := by
  induction w with
  | zero => intro n; rfl
  | succ w ih => intro n; simp [hexDigits, ih]

/-- Splitting the digit string: the first `k` of `k + m` digits are the
digits of `n / 16 ^ m`. -/
theorem hexDigits_split (m : Nat) : ∀ k n,
    hexDigits (k + m) n = hexDigits k (n / 16 ^ m) ++ hexDigits m n := by
  induction m with
  | zero => intro k n; simp [hexDigits]
  | succ m ih =>
      intro k n
      have h1 : k + (m + 1) = (k + m) + 1 := by omega
      rw [h1]
      show hexDigits ((k + m) + 1) n = _
      rw [show hexDigits ((k + m) + 1) n =
            hexDigits (k + m) (n / 16) ++ [hexDigit (n % 16)] from rfl]
      rw [ih k (n / 16)]
      rw [show hexDigits (m + 1) n =
            hexDigits m (n / 16) ++ [hexDigit (n % 16)] from rfl]
      rw [Nat.div_div_eq_div_mul, show 16 * 16 ^ m = 16 ^ (m + 1) from by ring]
      simp

/-- The first 8 of the 32 uuid hex digits are determined by the top 32
bits of the 128-bit value alone. -/
theorem take8_hexDigits (x : Nat) :
    (hexDigits 32 x).take 8 = hexDigits 8 (x / 16 ^ 24) := by
  rw [show (32 : Nat) = 8 + 24 from rfl, hexDigits_split 24 8 x]
  rw [show (8 : Nat) = (hexDigits 8 (x / 16 ^ 24)).length from
    (hexDigits_length 8 _).symm]
  exact List.take_left _ _

/-- A hex digit of a remainder mod 16 is one of the sixteen lowercase
hex characters. -/
theorem hexDigit_mem_hexChars (n : Nat) (h : n < 16) :
    hexDigit n ∈ "0123456789abcdef".data := by
  interval_cases n <;> decide

/-- Every character of a hex digit string is a lowercase hex character. -/
theorem hexDigits_chars (w : Nat) : ∀ n, ∀ c ∈ hexDigits w n,
    c ∈ "0123456789abcdef".data := by
  induction w with
  | zero => intro n c hc; cases hc
  | succ w ih =>
      intro n c hc
      rcases List.mem_append.mp hc with h1 | h1
      · exact ih (n / 16) c h1
      · rw [List.mem_singleton.mp h1]
        exact hexDigit_mem_hexChars (n % 16) (Nat.mod_lt n (by omega))

/-- The character data of a string concatenation. -/
theorem string_data_append (a b : String) : (a ++ b).data = a.data ++ b.data := by
  cases a
  cases b
  rfl

/-- C9 (amended): every generated trace id is the fixed text `trace_`
followed by exactly 8 lowercase hexadecimal characters (14 characters in
all), computed from the random draw alone (no counter state); the id
depends only on the top 32 bits of the 128-bit draw, so at most 2^32
distinct ids exist and two draws agreeing on those bits collide —
collision probability is NOT negligible for histories approaching 2^32
operations. -/
theorem gen_trace_id_spec (u v : Nat)
    (h : u % 2 ^ 128 / 16 ^ 24 = v % 2 ^ 128 / 16 ^ 24) :
    gen_trace_id u = gen_trace_id v
    ∧ (gen_trace_id u).data.take 6 = "trace_".data
    ∧ (gen_trace_id u).length = 14
    ∧ ∀ c ∈ (gen_trace_id u).data.drop 6, c ∈ "0123456789abcdef".data := by
  have hform : ∀ w : Nat, gen_trace_id w =
      "trace_" ++ String.mk (hexDigits 8 (w % 2 ^ 128 / 16 ^ 24)) := by
    intro w
    unfold gen_trace_id uuidHex pySlice
    rw [show (String.mk (hexDigits 32 (w % 2 ^ 128))).data =
          hexDigits 32 (w % 2 ^ 128) from rfl]
    rw [take8_hexDigits]
  refine ⟨by rw [hform u, hform v, h], ?_, ?_, ?_⟩
  · rw [hform u, string_data_append]
    rw [show (6 : Nat) = "trace_".data.length from rfl]
    exact List.take_left _ _
  · rw [hform u, string_length_append]
    show "trace_".length + (hexDigits 8 (u % 2 ^ 128 / 16 ^ 24)).length = 14
    rw [hexDigits_length]
    decide
  · intro c hc
    rw [hform u, string_data_append] at hc
    rw [show (6 : Nat) = "trace_".data.length from rfl] at hc
    rw [List.drop_left] at hc
    exact hexDigits_chars 8 _ c hc

/-- C9 counterexample: the distinct 128-bit draws 0 and 1 generate the
same trace id `trace_00000000` — ids collide well within 2^32 distinct
draws, so the collision probability is not negligible at that history
size. -/
theorem gen_trace_id_collision :
    gen_trace_id 0 = gen_trace_id 1 ∧ (0 : Nat) ≠ 1 := by
  constructor
  · decide
  · decide

/-- Witness for C9: the two draws 0 and 1 agree on the top 32 bits, so
the amended theorem applies and their ids coincide. -/
theorem gen_trace_id_spec_witness :
    (0 : Nat) % 2 ^ 128 / 16 ^ 24 = 1 % 2 ^ 128 / 16 ^ 24
    ∧ gen_trace_id 0 = gen_trace_id 1 :=
  ⟨by decide, (gen_trace_id_spec 0 1 (by decide)).1⟩
